import Mathlib

/-!
Verification of the form validation and submission pipeline of
`assets/js/main.js`: the Field Validator (`FormHandler.validateField`),
the Form Controller (`handleSubmit` / `validateForm` / `submitForm` /
`showFieldValidation` / `showMessage`) and the timing combinator
`utils.debounce`.

Strings are handled as `List Char` after `String.toList`; JavaScript
whitespace is modelled by `Char.isWhitespace`, and the two regular
expressions of `validateField` are modelled as executable matchers over
`List Char` (full-match semantics, as both patterns are anchored with
`^...$`).  Timers (`setTimeout` / `clearTimeout`) are modelled on a
discrete millisecond timeline.
-/

namespace MainJs

/-- A character admitted by the class `[^\s@]` of the email regular
expression `/^[^\s@]+@[^\s@]+\.[^\s@]+$/` in `FormHandler.validateField`:
any character that is neither whitespace nor `@`. -/
def localChar (c : Char) : Bool :=
  !c.isWhitespace && !(c == '@')

/-- Match of `\.[^\s@]+` against the whole list: a dot followed by a
nonempty run of `[^\s@]` characters. -/
def dotLocalPlus : List Char → Bool
  | [] => false
  | c :: t => c == '.' && !t.isEmpty && t.all localChar

/-- Backtracking match of `[^\s@]+\.[^\s@]+` (the part of the email
pattern after the `@`) against the whole list: at each position the
middle run may stop (if `\.[^\s@]+` matches the rest) or continue. -/
def domainTest : List Char → Bool
  | [] => false
  | c :: rest => localChar c && (dotLocalPlus rest || domainTest rest)

/-- Match of `@[^\s@]+\.[^\s@]+` against the whole list: a literal `@`
followed by the domain pattern. -/
def atDomainTest : List Char → Bool
  | [] => false
  | a :: domain => a == '@' && domainTest domain

/-- `emailRegex.test(value)` for `/^[^\s@]+@[^\s@]+\.[^\s@]+$/`.  Since
`@` is excluded from `[^\s@]`, the local part of any match is exactly the
maximal leading run of `[^\s@]` characters; it must be nonempty and be
followed by a literal `@` and a match of `[^\s@]+\.[^\s@]+`. -/
def emailTest (cs : List Char) : Bool :=
  !(cs.takeWhile localChar).isEmpty && atDomainTest (cs.dropWhile localChar)

/-- A character admitted by the class `[\d\s\-\+\(\)]` of the telephone
regular expression `/^[\d\s\-\+\(\)]+$/` in `FormHandler.validateField`. -/
def telChar (c : Char) : Bool :=
  c.isDigit || c.isWhitespace || c == '-' || c == '+' || c == '(' || c == ')'

/-- `phoneRegex.test(value)` for `/^[\d\s\-\+\(\)]+$/`: a nonempty value
all of whose characters are admitted. -/
def telTest (cs : List Char) : Bool :=
  !cs.isEmpty && cs.all telChar

/-- JavaScript `String.prototype.trim` (`field.value.trim()`): strip
whitespace from both ends. -/
def jsTrim (cs : List Char) : List Char :=
  ((cs.dropWhile Char.isWhitespace).reverse.dropWhile Char.isWhitespace).reverse

/-- A form field as `FormHandler.validateField` reads it: `field.value`,
`field.type` and `field.hasAttribute('required')`. -/
structure Field where
  value : String
  type : String
  required : Bool
  deriving DecidableEq

/-- The verdict `validateField` computes: its local variables `isValid`
and `message` at the point of `showFieldValidation(field, isValid,
message)`. -/
structure ValidationResult where
  isValid : Bool
  message : String
  deriving DecidableEq

/-- `FormHandler.validateField`, the Field Validator: trim the value;
if `required` and the trimmed value is empty, invalid with the
required-field message; otherwise, if the trimmed value is nonempty,
test it against the email or telephone regular expression according to
`field.type` (other types are not checked); otherwise valid. -/
def validateField (f : Field) : ValidationResult :=
  let value := jsTrim f.value.toList
  if f.required && value.isEmpty then
    { isValid := false, message := "此字段为必填项" }
  else if !value.isEmpty then
    if f.type == "email" then
      if !emailTest value then { isValid := false, message := "请输入有效的邮箱地址" }
      else { isValid := true, message := "" }
    else if f.type == "tel" then
      if !telTest value then { isValid := false, message := "请输入有效的电话号码" }
      else { isValid := true, message := "" }
    else { isValid := true, message := "" }
  else { isValid := true, message := "" }

/-- `FormHandler.validateForm`: run `validateField` over every field of
the form; the form is valid when no field failed. -/
def validateForm (form : List Field) : Bool :=
  form.all fun f => (validateField f).isValid

/-- The data a Transport Adapter call carries: `new FormData(form)`
holds every field's value. -/
def formData (form : List Field) : List String :=
  form.map Field.value

/-- `FormHandler.handleSubmit` observed through its Transport Adapter
calls: after `preventDefault`, `submitForm` (which performs one `fetch`
with the form's data) runs exactly when `validateForm` succeeds.  The
result lists the adapter invocations the submission makes. -/
def handleSubmit (form : List Field) : List (List String) :=
  if validateForm form then [formData form] else []

/-- The Form Controller's phase: `Submitting` between disabling the
submit control and the `finally` block, `Idle` otherwise. -/
inductive Phase
  | idle
  | submitting
  deriving DecidableEq

/-- Outcome of the awaited `fetch` call in `FormHandler.submitForm`:
a response with `response.ok`, a response without it (the code then
throws into its own `catch`), or a rejected `fetch` (adapter-level
failure). -/
inductive FetchOutcome
  | ok
  | notOk
  | failed
  deriving DecidableEq

/-- A toast created by `FormHandler.showMessage`: its text and the
`type` part of its `form-message ${type}` class. -/
structure Toast where
  text : String
  kind : String
  deriving DecidableEq

/-- The state `FormHandler.submitForm` manipulates: the controller
phase, the submit control's `disabled` flag and label, the form's field
values, and the toasts appended to the document. -/
structure FormState where
  phase : Phase
  btnDisabled : Bool
  btnText : String
  fieldValues : List String
  toasts : List Toast
  deriving DecidableEq

/-- The toast `showMessage('表单提交成功！', 'success')` creates. -/
def successToast : Toast :=
  { text := "表单提交成功！", kind := "success" }

/-- The toast `showMessage('提交失败，请稍后重试', 'error')` creates. -/
def errorToast : Toast :=
  { text := "提交失败，请稍后重试", kind := "error" }

/-- `FormHandler.submitForm` for a given fetch outcome: save the
original label, disable the control and show the busy label, await the
fetch; on `ok` show the success toast and `form.reset()` (modelled as
clearing every field value to the default empty string), otherwise show
the error toast (the non-ok branch throws into the `catch`, which shows
it); the `finally` block re-enables the control and restores the label
on every exit path. -/
def submitForm (st : FormState) (outcome : FetchOutcome) : FormState :=
  let originalText := st.btnText
  let busy : FormState :=
    { st with phase := Phase.submitting, btnDisabled := true, btnText := "提交中..." }
  let afterFetch : FormState :=
    match outcome with
    | FetchOutcome.ok =>
        { busy with
            toasts := busy.toasts ++ [successToast],
            fieldValues := busy.fieldValues.map fun _ => "" }
    | FetchOutcome.notOk => { busy with toasts := busy.toasts ++ [errorToast] }
    | FetchOutcome.failed => { busy with toasts := busy.toasts ++ [errorToast] }
  { afterFetch with phase := Phase.idle, btnDisabled := false, btnText := originalText }

/-- The DOM state `FormHandler.showFieldValidation` manipulates for one
field: whether the field carries the `error` class, and the text of the
sibling `.field-error` node when one is present. -/
structure FieldDisplay where
  errorClass : Bool
  errorNode : Option String
  deriving DecidableEq

/-- `FormHandler.showFieldValidation`: when invalid, add the `error`
class and create the `.field-error` node with the message (or update an
existing node's text); when valid, remove the class and remove the node
if present. -/
def showFieldValidation (d : FieldDisplay) (isValid : Bool) (message : String) :
    FieldDisplay :=
  if !isValid then
    { errorClass := true,
      errorNode :=
        match d.errorNode with
        | none => some message
        | some _ => some message }
  else
    { errorClass := false, errorNode := none }

/-- One validation event on a field (blur, debounced input, or a
submit-time `validateForm` pass): `validateField` on the field's current
value followed by `showFieldValidation` with its result. -/
def validateEvent (d : FieldDisplay) (f : Field) : FieldDisplay :=
  let r := validateField f
  showFieldValidation d r.isValid r.message

/-- A settled sequence of validation events on one field, oldest first;
each list entry is the field as it stood when that event's validation
ran. -/
def runEvents (d : FieldDisplay) (fs : List Field) : FieldDisplay :=
  fs.foldl validateEvent d

/-- The display state the spec's invariant demands for a just-computed
`ValidationResult`: no error markup when valid; the `error` class and
the result's message when invalid. -/
def displayFor (r : ValidationResult) : FieldDisplay :=
  if r.isValid then { errorClass := false, errorNode := none }
  else { errorClass := true, errorNode := some r.message }

/-- `utils.debounce(func, wait)` on a discrete millisecond timeline,
applied to a list of call times (ascending): a call at time `t` clears
any pending timer and schedules `func` at `t + wait`; the timer of a
non-final call survives only if it fires before the next call arrives.
The result is the list of times at which `func` actually runs. -/
def debounceFires (wait : Nat) : List Nat → List Nat
  | [] => []
  | [t] => [t + wait]
  | t :: t' :: ts =>
    (if t + wait ≤ t' then [t + wait] else []) ++ debounceFires wait (t' :: ts)

/-- Timeline of one toast created by `FormHandler.showMessage`, in
milliseconds after `document.body.appendChild`: the `show` class is
added by the 100 ms timer, removed by the 3000 ms timer, and the element
is removed from the document by the 300 ms timer nested inside the
latter (so at 3000 + 300 ms). -/
structure ToastTimeline where
  showAt : Nat
  fadeAt : Nat
  removeAt : Nat
  deriving DecidableEq

/-- The timer schedule `showMessage` sets up:
`setTimeout(..., 100)`, `setTimeout(..., 3000)` and the nested
`setTimeout(() => message.remove(), 300)`. -/
def showMessageTimeline : ToastTimeline :=
  { showAt := 100, fadeAt := 3000, removeAt := 3000 + 300 }

/-- The toast carries the `show` styling `t` ms after creation. -/
def toastVisibleAt (tl : ToastTimeline) (t : Nat) : Prop :=
  tl.showAt ≤ t ∧ t < tl.fadeAt

instance (tl : ToastTimeline) (t : Nat) : Decidable (toastVisibleAt tl t) :=
  inferInstanceAs (Decidable (_ ∧ _))

/-- The toast element is still in the document `t` ms after creation. -/
def toastInDocumentAt (tl : ToastTimeline) (t : Nat) : Prop :=
  t < tl.removeAt

instance (tl : ToastTimeline) (t : Nat) : Decidable (toastInDocumentAt tl t) :=
  Nat.decLt _ _

/-- The spec's email shape `local@domain.tld`, in the spec's own words:
at least one non-whitespace/non-`@` character, then an `@`, then a
domain containing a dot that splits it into a nonempty part and a
nonempty tld, with no whitespace and no second `@` anywhere. -/
def specEmailShape (cs : List Char) : Prop :=
  ∃ l d t : List Char,
    cs = l ++ '@' :: (d ++ '.' :: t) ∧ l ≠ [] ∧ d ≠ [] ∧ t ≠ [] ∧
      ∀ c ∈ l ++ d ++ t, ¬c.isWhitespace ∧ c ≠ '@'

/-- The spec's telephone shape: every character is a digit, whitespace,
`-`, `+`, `(`, or `)`. -/
def specTelShape (cs : List Char) : Prop :=
  ∀ c ∈ cs,
    c.isDigit = true ∨ c.isWhitespace = true ∨ c = '-' ∨ c = '+' ∨ c = '(' ∨ c = ')'

/-! ### List helpers -/

theorem dropWhile_append_of_all {α : Type} (p : α → Bool) (l m : List α)
    (h : ∀ c ∈ l, p c = true) : (l ++ m).dropWhile p = m.dropWhile p := by
  induction l with
  | nil => rfl
  | cons a l ih =>
    rw [List.cons_append, List.dropWhile_cons, h a (List.mem_cons_self a l)]
    exact ih fun c hc => h c (List.mem_cons_of_mem a hc)

theorem takeWhile_append_of_all {α : Type} (p : α → Bool) (l m : List α)
    (h : ∀ c ∈ l, p c = true) : (l ++ m).takeWhile p = l ++ m.takeWhile p := by
  induction l with
  | nil => rfl
  | cons a l ih =>
    rw [List.cons_append, List.takeWhile_cons, h a (List.mem_cons_self a l)]
    rw [ih fun c hc => h c (List.mem_cons_of_mem a hc)]
    simp

/-! ### The email matcher against the spec's shape -/

theorem dotLocalPlus_iff (ds : List Char) :
    dotLocalPlus ds = true ↔
      ∃ t, ds = '.' :: t ∧ t ≠ [] ∧ ∀ c ∈ t, localChar c = true := by
  cases ds with
  | nil => simp [dotLocalPlus]
  | cons c t =>
    simp only [dotLocalPlus, Bool.and_eq_true, beq_iff_eq, Bool.not_eq_true',
      List.isEmpty_eq_false, List.all_eq_true, List.cons.injEq]
    constructor
    · rintro ⟨⟨hc, hne⟩, hall⟩
      exact ⟨t, ⟨hc, rfl⟩, hne, hall⟩
    · rintro ⟨t', ⟨hc, ht⟩, hne, hall⟩
      subst ht
      exact ⟨⟨hc, hne⟩, hall⟩

theorem domainTest_iff (ds : List Char) :
    domainTest ds = true ↔
      ∃ d t, ds = d ++ '.' :: t ∧ d ≠ [] ∧ t ≠ [] ∧
        (∀ c ∈ d, localChar c = true) ∧ (∀ c ∈ t, localChar c = true) := by
  induction ds with
  | nil =>
    constructor
    · intro h; exact absurd h (by simp [domainTest])
    · rintro ⟨d, t, hds, -, -, -, -⟩
      exact absurd hds.symm (List.append_ne_nil_of_right_ne_nil d (List.cons_ne_nil _ _))
  | cons c rest ih =>
    constructor
    · intro h
      rw [show domainTest (c :: rest) = (localChar c && (dotLocalPlus rest || domainTest rest))
          from rfl, Bool.and_eq_true, Bool.or_eq_true] at h
      obtain ⟨hc, hstop | hcont⟩ := h
      · obtain ⟨t, hrest, htne, htl⟩ := (dotLocalPlus_iff rest).mp hstop
        refine ⟨[c], t, by rw [hrest]; rfl, List.cons_ne_nil _ _, htne, ?_, htl⟩
        intro x hx
        rw [List.mem_singleton] at hx
        rw [hx]; exact hc
      · obtain ⟨d, t, hrest, hdne, htne, hdl, htl⟩ := ih.mp hcont
        refine ⟨c :: d, t, by rw [hrest]; rfl, List.cons_ne_nil _ _, htne, ?_, htl⟩
        intro x hx
        rcases List.mem_cons.mp hx with hx | hx
        · rw [hx]; exact hc
        · exact hdl x hx
    · rintro ⟨d, t, hds, hdne, htne, hdl, htl⟩
      cases d with
      | nil => exact absurd rfl hdne
      | cons c' d' =>
        rw [List.cons_append] at hds
        injection hds with hc hrest
        subst hc
        rw [show domainTest (c :: rest) = (localChar c && (dotLocalPlus rest || domainTest rest))
            from rfl, Bool.and_eq_true, Bool.or_eq_true]
        refine ⟨hdl c (List.mem_cons_self _ _), ?_⟩
        cases d' with
        | nil =>
          left
          rw [(dotLocalPlus_iff rest)]
          exact ⟨t, by simpa using hrest, htne, htl⟩
        | cons c'' d'' =>
          right
          rw [ih]
          exact ⟨c'' :: d'', t, hrest, List.cons_ne_nil _ _, htne,
            fun x hx => hdl x (List.mem_cons_of_mem _ hx), htl⟩

theorem localChar_iff (c : Char) : localChar c = true ↔ ¬c.isWhitespace ∧ c ≠ '@' := by
  simp [localChar]

theorem emailTest_decomp (cs : List Char) :
    emailTest cs = true ↔
      ∃ l rest, cs = l ++ '@' :: rest ∧ l ≠ [] ∧ (∀ c ∈ l, localChar c = true) ∧
        domainTest rest = true := by
  constructor
  · intro h
    rw [emailTest, Bool.and_eq_true, Bool.not_eq_true', List.isEmpty_eq_false] at h
    obtain ⟨hne, hat⟩ := h
    cases hdw : cs.dropWhile localChar with
    | nil => rw [hdw] at hat; exact absurd hat (by simp [atDomainTest])
    | cons a domain =>
      rw [hdw, atDomainTest, Bool.and_eq_true, beq_iff_eq] at hat
      obtain ⟨ha, hdom⟩ := hat
      subst ha
      refine ⟨cs.takeWhile localChar, domain, ?_, hne, ?_, hdom⟩
      · conv_lhs => rw [← List.takeWhile_append_dropWhile (p := localChar) (l := cs)]
        rw [hdw]
      · exact fun c hc => List.mem_takeWhile_imp hc
  · rintro ⟨l, rest, hcs, hlne, hll, hdom⟩
    subst hcs
    have hdw : (l ++ '@' :: rest).dropWhile localChar = '@' :: rest := by
      rw [dropWhile_append_of_all localChar l _ hll, List.dropWhile_cons,
        show localChar '@' = false from by decide]
      simp
    have htw : (l ++ '@' :: rest).takeWhile localChar = l := by
      rw [takeWhile_append_of_all localChar l _ hll, List.takeWhile_cons,
        show localChar '@' = false from by decide]
      simp
    rw [emailTest, hdw, htw, atDomainTest]
    simp [hlne, hdom]

theorem specEmailShape_iff (cs : List Char) :
    emailTest cs = true ↔ specEmailShape cs := by
  rw [emailTest_decomp]
  constructor
  · rintro ⟨l, rest, hcs, hlne, hll, hdom⟩
    obtain ⟨d, t, hrest, hdne, htne, hdl, htl⟩ := (domainTest_iff rest).mp hdom
    refine ⟨l, d, t, by rw [hcs, hrest], hlne, hdne, htne, ?_⟩
    intro c hc
    rw [← localChar_iff]
    rcases List.mem_append.mp hc with hc' | hc'
    · rcases List.mem_append.mp hc' with hc'' | hc''
      · exact hll c hc''
      · exact hdl c hc''
    · exact htl c hc'
  · rintro ⟨l, d, t, hcs, hlne, hdne, htne, hall⟩
    refine ⟨l, d ++ '.' :: t, hcs, hlne, ?_, ?_⟩
    · intro c hc
      rw [localChar_iff]
      exact hall c (List.mem_append_left t (List.mem_append_left d hc))
    · rw [domainTest_iff]
      refine ⟨d, t, rfl, hdne, htne, ?_, ?_⟩
      · intro c hc
        rw [localChar_iff]
        exact hall c (List.mem_append_left t (List.mem_append_right l hc))
      · intro c hc
        rw [localChar_iff]
        exact hall c (List.mem_append_right (l ++ d) hc)

/-! ### Branch behaviour of the Field Validator -/

theorem jsTrim_eq_nil_of_all_whitespace (cs : List Char)
    (h : ∀ c ∈ cs, c.isWhitespace = true) : jsTrim cs = [] := by
  unfold jsTrim
  rw [List.dropWhile_eq_nil_iff.mpr h]
  rfl

theorem validateField_email (f : Field) (htype : f.type = "email")
    (hne : jsTrim f.value.toList ≠ []) :
    (validateField f).isValid = emailTest (jsTrim f.value.toList) := by
  have hne' : jsTrim f.value.data ≠ [] := hne
  show (validateField f).isValid = emailTest (jsTrim f.value.data)
  cases h : emailTest (jsTrim f.value.data) <;>
    simp [validateField, htype, hne', h]

theorem validateField_tel (f : Field) (htype : f.type = "tel")
    (hne : jsTrim f.value.toList ≠ []) :
    (validateField f).isValid = telTest (jsTrim f.value.toList) := by
  have hne' : jsTrim f.value.data ≠ [] := hne
  show (validateField f).isValid = telTest (jsTrim f.value.data)
  cases h : telTest (jsTrim f.value.data) <;>
    simp [validateField, htype, hne', h]

theorem telChar_iff (c : Char) :
    telChar c = true ↔
      c.isDigit = true ∨ c.isWhitespace = true ∨ c = '-' ∨ c = '+' ∨ c = '(' ∨ c = ')' := by
  simp [telChar, or_assoc]

/-! ### Concrete checks from the spec's examples -/

theorem validateField_email_examples :
    (validateField { value := "a@b.co", type := "email", required := false }).isValid = true ∧
    (validateField { value := "a@b", type := "email", required := false }).isValid = false ∧
    (validateField { value := "a b@c.com", type := "email", required := false }).isValid
      = false := by
  decide

theorem validateField_tel_examples :
    (validateField { value := "+1 (555) 123-4567", type := "tel", required := false }).isValid
        = true ∧
    (validateField { value := "call me", type := "tel", required := false }).isValid = false := by
  decide

/-! ### The claims -/

/-- Claim C1: on submit, the Transport Adapter is invoked exactly once
with all of the form's field values if and only if `validateField`
returns valid for every field; if any field is invalid the submission is
aborted and no adapter call is made. -/
theorem handleSubmit_adapter_calls (form : List Field) :
    (handleSubmit form = [formData form] ↔ ∀ f ∈ form, (validateField f).isValid = true) ∧
    (handleSubmit form = [] ↔ ∃ f ∈ form, (validateField f).isValid = false) := by
  have hiff : validateForm form = true ↔ ∀ f ∈ form, (validateField f).isValid = true :=
    List.all_eq_true
  cases h : validateForm form with
  | true =>
    have hs : handleSubmit form = [formData form] := by simp [handleSubmit, h]
    have hall := hiff.mp h
    refine ⟨⟨fun _ => hall, fun _ => hs⟩, ?_⟩
    rw [hs]
    constructor
    · intro habs; exact absurd habs (by simp)
    · rintro ⟨f, hf, hfalse⟩
      rw [hall f hf] at hfalse
      cases hfalse
  | false =>
    have hs : handleSubmit form = [] := by simp [handleSubmit, h]
    have hex : ∃ f ∈ form, (validateField f).isValid = false := by
      obtain ⟨x, hx, hpx⟩ := List.all_eq_false.mp h
      exact ⟨x, hx, Bool.eq_false_iff.mpr hpx⟩
    refine ⟨?_, by simp [hs, hex]⟩
    rw [hs]
    constructor
    · intro habs; exact absurd habs (by simp)
    · intro hall
      rw [← hiff, h] at hall
      cases hall


/-- Claim C2: for every field with a non-empty trimmed value and type
`email`, `validateField` returns valid if and only if the trimmed value
matches the spec's shape `local@domain.tld`. -/
theorem email_valid_iff_shape (f : Field) (htype : f.type = "email")
    (hne : jsTrim f.value.toList ≠ []) :
    (validateField f).isValid = true ↔ specEmailShape (jsTrim f.value.toList) := by
  rw [validateField_email f htype hne, specEmailShape_iff]

theorem email_valid_iff_shape_witness :
    ({ value := "a@b.co", type := "email", required := false } : Field).type = "email" ∧
    jsTrim (("a@b.co" : String).toList) ≠ [] ∧
    ((validateField { value := "a@b.co", type := "email", required := false }).isValid = true ↔
      specEmailShape (jsTrim (("a@b.co" : String).toList))) :=
  ⟨rfl, by decide, email_valid_iff_shape
    { value := "a@b.co", type := "email", required := false } rfl (by decide)⟩

/-- Claim C3: for every required field whose value is empty or
whitespace-only, `validateField` returns invalid together with the
required-field message. -/
theorem required_empty_invalid (f : Field) (hreq : f.required = true)
    (hws : ∀ c ∈ f.value.toList, c.isWhitespace = true) :
    validateField f = { isValid := false, message := "此字段为必填项" } := by
  have htrim : jsTrim f.value.data = [] := jsTrim_eq_nil_of_all_whitespace _ hws
  simp [validateField, htrim, hreq]

theorem required_empty_invalid_witness :
    ({ value := "  ", type := "text", required := true } : Field).required = true ∧
    (∀ c ∈ ("  " : String).toList, c.isWhitespace = true) ∧
    validateField { value := "  ", type := "text", required := true }
      = { isValid := false, message := "此字段为必填项" } :=
  ⟨rfl, by decide, required_empty_invalid
    { value := "  ", type := "text", required := true } rfl (by decide)⟩

/-- Claim C4: for every field with a non-empty trimmed value and type
`tel`, `validateField` returns valid if and only if every character of
the trimmed value is a digit, whitespace, `-`, `+`, `(`, or `)`. -/
theorem tel_valid_iff_shape (f : Field) (htype : f.type = "tel")
    (hne : jsTrim f.value.toList ≠ []) :
    (validateField f).isValid = true ↔ specTelShape (jsTrim f.value.toList) := by
  rw [validateField_tel f htype hne]
  unfold telTest
  rw [Bool.and_eq_true, Bool.not_eq_true', List.isEmpty_eq_false, List.all_eq_true]
  unfold specTelShape
  constructor
  · rintro ⟨-, hall⟩ c hc
    exact (telChar_iff c).mp (hall c hc)
  · intro hall
    exact ⟨hne, fun c hc => (telChar_iff c).mpr (hall c hc)⟩

theorem tel_valid_iff_shape_witness :
    ({ value := "+1 (555) 123-4567", type := "tel", required := false } : Field).type = "tel" ∧
    jsTrim (("+1 (555) 123-4567" : String).toList) ≠ [] ∧
    ((validateField { value := "+1 (555) 123-4567", type := "tel", required := false }).isValid
        = true ↔
      specTelShape (jsTrim (("+1 (555) 123-4567" : String).toList))) :=
  ⟨rfl, by decide, tel_valid_iff_shape
    { value := "+1 (555) 123-4567", type := "tel", required := false } rfl (by decide)⟩

/-- Claim C5: on every exit path of a submission attempt — success,
non-ok response, or adapter-level failure — the submit control is
re-enabled, its original label is restored, and the controller returns
to `Idle`. -/
theorem submitForm_restores_control (st : FormState) (outcome : FetchOutcome) :
    (submitForm st outcome).btnDisabled = false ∧
    (submitForm st outcome).btnText = st.btnText ∧
    (submitForm st outcome).phase = Phase.idle := by
  cases outcome <;> exact ⟨rfl, rfl, rfl⟩

/-- Claim C6: a failed Transport Adapter call (non-ok response or
rejected fetch) leaves every field value unchanged and appends an error
toast; a success response clears all field values and appends a success
toast. -/
theorem submitForm_outcome_effects (st : FormState) :
    ((submitForm st FetchOutcome.notOk).fieldValues = st.fieldValues ∧
      (submitForm st FetchOutcome.notOk).toasts = st.toasts ++ [errorToast]) ∧
    ((submitForm st FetchOutcome.failed).fieldValues = st.fieldValues ∧
      (submitForm st FetchOutcome.failed).toasts = st.toasts ++ [errorToast]) ∧
    ((∀ v ∈ (submitForm st FetchOutcome.ok).fieldValues, v = "") ∧
      (submitForm st FetchOutcome.ok).toasts = st.toasts ++ [successToast]) := by
  refine ⟨⟨rfl, rfl⟩, ⟨rfl, rfl⟩, ?_, rfl⟩
  intro v hv
  have hmap : (submitForm st FetchOutcome.ok).fieldValues
      = st.fieldValues.map fun _ => "" := rfl
  rw [hmap] at hv
  obtain ⟨x, -, hx⟩ := List.mem_map.mp hv
  exact hx.symm

theorem validateEvent_const (d : FieldDisplay) (f : Field) :
    validateEvent d f = displayFor (validateField f) := by
  unfold validateEvent displayFor
  cases h : (validateField f).isValid with
  | false => cases hd : d.errorNode <;> simp [showFieldValidation, h, hd]
  | true => cases hd : d.errorNode <;> simp [showFieldValidation, h, hd]

/-- Claim C7: after any settled sequence of validation events on a
field, the displayed inline error state equals the state demanded by the
last ValidationResult computed for the field's current value: no error
markup when valid, the result's message when invalid — no stale error
survives. -/
theorem display_matches_last_validation (d : FieldDisplay) (fs : List Field) (f : Field) :
    runEvents d (fs ++ [f]) = displayFor (validateField f) := by
  unfold runEvents
  rw [List.foldl_append]
  exact validateEvent_const _ f

/-- Claim C8: for rapid repeated input events on one field (each edit
arriving strictly before the previous 300 ms timer fires), the debounced
validator runs exactly once, 300 ms after the last edit (trailing-edge
debounce). -/
theorem debounce_single_fire (t : Nat) (ts : List Nat)
    (h : List.Chain' (fun a b => a < b ∧ b < a + 300) (t :: ts)) :
    debounceFires 300 (t :: ts) = [ts.getLastD t + 300] := by
  induction ts generalizing t with
  | nil => rfl
  | cons u ts ih =>
    rw [List.chain'_cons] at h
    obtain ⟨⟨-, hlt⟩, hrest⟩ := h
    rw [show debounceFires 300 (t :: u :: ts) =
        (if t + 300 ≤ u then [t + 300] else []) ++ debounceFires 300 (u :: ts) from rfl]
    rw [if_neg (by omega), List.nil_append, ih u hrest, List.getLastD_cons]

theorem debounce_single_fire_witness :
    List.Chain' (fun a b => a < b ∧ b < a + 300) (0 :: [100, 250, 400]) ∧
    debounceFires 300 (0 :: [100, 250, 400]) = [700] :=
  ⟨by simp [List.chain'_cons], debounce_single_fire 0 [100, 250, 400] (by simp [List.chain'_cons])⟩

/-- Claim C9: a toast is created invisible, carries its visible styling
exactly from 100 ms after creation until the 3000 ms fade timer, and is
removed from the document 300 ms after fading begins (at 3300 ms). -/
theorem toast_lifecycle :
    (¬ toastVisibleAt showMessageTimeline 0) ∧
    (∀ t, toastVisibleAt showMessageTimeline t ↔ 100 ≤ t ∧ t < 3000) ∧
    showMessageTimeline.removeAt = showMessageTimeline.fadeAt + 300 ∧
    (∀ t, toastInDocumentAt showMessageTimeline t ↔ t < 3300) :=
  ⟨by decide, fun _ => Iff.rfl, rfl, fun _ => Iff.rfl⟩

/-- Claim C10: a non-required field whose value is all whitespace is
valid regardless of its type, because the value is trimmed before any
format check and the format checks run only on a nonempty trimmed
value. -/
theorem optional_whitespace_valid (f : Field) (hreq : f.required = false)
    (hws : ∀ c ∈ f.value.toList, c.isWhitespace = true) :
    validateField f = { isValid := true, message := "" } := by
  have htrim : jsTrim f.value.data = [] := jsTrim_eq_nil_of_all_whitespace _ hws
  simp [validateField, htrim, hreq]

theorem optional_whitespace_valid_witness :
    ({ value := "   ", type := "email", required := false } : Field).required = false ∧
    (∀ c ∈ ("   " : String).toList, c.isWhitespace = true) ∧
    validateField { value := "   ", type := "email", required := false }
      = { isValid := true, message := "" } :=
  ⟨rfl, by decide, optional_whitespace_valid
    { value := "   ", type := "email", required := false } rfl (by decide)⟩

end MainJs
